import Mathlib

/-!
# Shallow embedding of the neighbor LBVH traverser

This file embeds the `LBVHTraverser` facade of the neighbor library
(`include/neighbor/LBVHTraverser.h`), together with the compressed-node
codec, the compression binning arithmetic and the rope-traversal loop of
its CUDA kernels, and proves the specified properties about them.

The facade (empty-input early returns, the 32-image limit, replay/setup
logic, buffer resizing, autotuner construction and forwarding) is
translated directly from the C++ source.  The kernels and the `Autotuner`
class body are not part of the provided sources; the definitions that
embed them are modelled from the specification and are marked as such in
their doc comments.
-/

set_option maxHeartbeats 1000000

namespace Neighbor

/-! ## Compressed node codec -/

/-- A compressed LBVH node: one `int4` (16 bytes), components `x y z w`
as 32-bit signed integers, modelled as unbounded `Int` (all packed values
stay inside the 32-bit range). -/
structure CompressedNode where
  x : Int
  y : Int
  z : Int
  w : Int
  deriving DecidableEq, Repr

/-- Two's-complement bitwise NOT on a signed integer: `~z = -z - 1`.
This is the meaning of the C operator `~` on `int`. -/
def bitNot (z : Int) : Int := -z - 1

/-- Modelled from the spec: the codec `pack` operation (§4.1 and the
`compress` doc comment).  The three 10-bit lo bins are concatenated into
`x` (x-bin in bits 29..20, y-bin in bits 19..10, z-bin in bits 9..0, bits
31..30 zero), the hi bins likewise into `y`; `z` is the left child index
(internal) or `~primitive` (leaf); `w` is the rope. -/
def pack (lox loy loz hix hiy hiz : Nat) (z w : Int) : CompressedNode where
  x := Int.ofNat (lox <<< 20 + loy <<< 10 + loz)
  y := Int.ofNat (hix <<< 20 + hiy <<< 10 + hiz)
  z := z
  w := w

/-- Result of unpacking a compressed node. -/
structure UnpackedNode where
  lox : Nat
  loy : Nat
  loz : Nat
  hix : Nat
  hiy : Nat
  hiz : Nat
  isLeaf : Bool
  payload : Int
  rope : Int
  deriving DecidableEq, Repr

/-- Modelled from the spec: the codec `unpack` operation (§4.1 and the
`compress` doc comment).  Each 10-bit field is recovered by right shift
and mask with `0x3ff`; the node is a leaf iff `z < 0`, in which case the
cached primitive is `~z`, otherwise `z` is the left child index. -/
def unpack (n : CompressedNode) : UnpackedNode where
  lox := (n.x.toNat >>> 20) &&& 0x3ff
  loy := (n.x.toNat >>> 10) &&& 0x3ff
  loz := n.x.toNat &&& 0x3ff
  hix := (n.y.toNat >>> 20) &&& 0x3ff
  hiy := (n.y.toNat >>> 10) &&& 0x3ff
  hiz := n.y.toNat &&& 0x3ff
  isLeaf := decide (n.z < 0)
  payload := if n.z < 0 then bitNot n.z else n.z
  rope := n.w

theorem bitNot_bitNot (z : Int) : bitNot (bitNot z) = z := by
  simp [bitNot]

theorem bitNot_neg_iff (z : Int) : bitNot z < 0 ↔ 0 ≤ z := by
  simp [bitNot]; omega

/-- Auxiliary: the packed word of three 10-bit fields, as a natural
number, with its field-extraction equations. -/
theorem packWord_extract (a b c : Nat) (ha : a ≤ 1023) (hb : b ≤ 1023) (hc : c ≤ 1023) :
    ((a <<< 20 + b <<< 10 + c) >>> 20) &&& 0x3ff = a ∧
    ((a <<< 20 + b <<< 10 + c) >>> 10) &&& 0x3ff = b ∧
    (a <<< 20 + b <<< 10 + c) &&& 0x3ff = c ∧
    a <<< 20 + b <<< 10 + c < 2 ^ 30 := by
  have hmask : (0x3ff : Nat) = 2 ^ 10 - 1 := by norm_num
  simp only [hmask, Nat.and_pow_two_sub_one_eq_mod, Nat.shiftRight_eq_div_pow,
    Nat.shiftLeft_eq]
  norm_num
  omega

/-- **C6.** Packing places the x-bin in bits 29..20, the y-bin in bits
19..10 and the z-bin in bits 9..0 of the `x` (resp. `y`) word with bits
31..30 zero (the word is nonnegative and below `2^30`), and unpacking by
right shift and mask with `0x3ff` recovers the bins exactly; the node is
a leaf iff `z < 0`, in which case the cached primitive equals `~z`, and
`z ≥ 0` gives the left child index; the rope is returned unchanged. -/
theorem pack_unpack_roundtrip (lox loy loz hix hiy hiz : Nat)
    (h1 : lox ≤ 1023) (h2 : loy ≤ 1023) (h3 : loz ≤ 1023)
    (h4 : hix ≤ 1023) (h5 : hiy ≤ 1023) (h6 : hiz ≤ 1023) (z w : Int) :
    unpack (pack lox loy loz hix hiy hiz z w) =
      { lox := lox, loy := loy, loz := loz, hix := hix, hiy := hiy, hiz := hiz,
        isLeaf := decide (z < 0),
        payload := if z < 0 then bitNot z else z,
        rope := w } ∧
    0 ≤ (pack lox loy loz hix hiy hiz z w).x ∧
    (pack lox loy loz hix hiy hiz z w).x < 2 ^ 30 ∧
    0 ≤ (pack lox loy loz hix hiy hiz z w).y ∧
    (pack lox loy loz hix hiy hiz z w).y < 2 ^ 30 := by
  obtain ⟨ea1, ea2, ea3, ea4⟩ := packWord_extract lox loy loz h1 h2 h3
  obtain ⟨eb1, eb2, eb3, eb4⟩ := packWord_extract hix hiy hiz h4 h5 h6
  refine ⟨?_, ?_, ?_, ?_, ?_⟩
  · simp only [unpack, pack, Int.toNat_ofNat]
    exact UnpackedNode.mk.injEq .. ▸ ⟨ea1, ea2, ea3, eb1, eb2, eb3, rfl, rfl, rfl⟩
  · exact Int.ofNat_nonneg _
  · simp only [pack, Int.ofNat_eq_natCast]; exact_mod_cast ea4
  · exact Int.ofNat_nonneg _
  · simp only [pack, Int.ofNat_eq_natCast]; exact_mod_cast eb4

/-- Witness for `pack_unpack_roundtrip` at concrete inputs. -/
theorem pack_unpack_roundtrip_witness :
    unpack (pack 1 2 3 1021 1022 1023 (-5) 7) =
      { lox := 1, loy := 2, loz := 3, hix := 1021, hiy := 1022, hiz := 1023,
        isLeaf := decide ((-5 : Int) < 0),
        payload := if (-5 : Int) < 0 then bitNot (-5) else (-5),
        rope := 7 } ∧
    0 ≤ (pack 1 2 3 1021 1022 1023 (-5) 7).x ∧
    (pack 1 2 3 1021 1022 1023 (-5) 7).x < 2 ^ 30 ∧
    0 ≤ (pack 1 2 3 1021 1022 1023 (-5) 7).y ∧
    (pack 1 2 3 1021 1022 1023 (-5) 7).y < 2 ^ 30 :=
  pack_unpack_roundtrip 1 2 3 1021 1022 1023
    (by decide) (by decide) (by decide) (by decide) (by decide) (by decide) (-5) 7

/-! ## Compression binning arithmetic -/

/-- Inclusive clamp of a bin index to `[0, 1023]`. -/
def clampBin (v : Int) : Int := max 0 (min v 1023)

/-- Modelled from the spec: the per-axis bin size of the compression
kernel, `bin = (hi0 - lo0) / 1024` (§3, "discretized into 2^10 bins").
Real arithmetic is modelled by `ℚ`; a zero-width root axis yields
`bin = 0`, and division by the zero bin is treated as 0 (§4.2: "the
implementation must treat a zero bin width as zero and all lo_bin/hi_bin
along that axis as 0"), which is the `ℚ` convention. -/
def binSize (lo0 hi0 : ℚ) : ℚ := (hi0 - lo0) / 1024

/-- The corrected per-axis bin size `(hi0 - lo0) / 1023`, under which the
1023 addressable bin indices span the whole root interval, so the
conservative-containment invariant holds for every node. -/
def binSize1023 (lo0 hi0 : ℚ) : ℚ := (hi0 - lo0) / 1023

/-- Modelled from the spec: `lo_bin = clamp(floor((orig_lo − lo0) / bin), 0, 1023)`
(§4.2 step 3). -/
def loBin (lo0 bin orig : ℚ) : Int := clampBin ⌊(orig - lo0) / bin⌋

/-- Modelled from the spec: `hi_bin = clamp(ceil((orig_hi − lo0) / bin), 0, 1023)`
(§4.2 step 3). -/
def hiBin (lo0 bin orig : ℚ) : Int := clampBin ⌈(orig - lo0) / bin⌉

/-- Modelled from the spec: decompression of a bin index back to a
coordinate, `lo0 + bin_index · bin` (§3). -/
def decompress (lo0 bin : ℚ) (b : Int) : ℚ := lo0 + (b : ℚ) * bin

/-- **C1 (counterexample).** With the spec's bin size `(hi0 − lo0)/1024`,
the hi-side conservative containment fails at the root node itself: for
`lo0 = 0`, `hi0 = 1024` (so `bin = 1`) and `orig_hi = 1024`, the ceiling
`1024` is clamped down to `1023` and the decompressed upper bound `1023`
lies strictly below the original upper bound `1024`. -/
theorem compress_containment_counterexample :
    decompress 0 (binSize 0 1024) (hiBin 0 (binSize 0 1024) 1024) < 1024 := by
  have hb : binSize 0 1024 = 1 := by norm_num [binSize]
  have harg : ((1024 : ℚ) - 0) / 1 = ((1024 : Int) : ℚ) := by norm_num
  have hc : hiBin 0 1 1024 = 1023 := by
    rw [hiBin, harg, Int.ceil_intCast]
    decide
  rw [hb, hc, decompress]
  norm_num

/-- **C1 (amended).** With the per-axis bin size `(hi0 − lo0)/1023`, for
every node whose AABB is contained in the root AABB, the decompressed
AABB conservatively contains the original one: `decompressed_lo ≤ orig_lo`
and `decompressed_hi ≥ orig_hi`, where `lo_bin = clamp(floor((orig_lo −
lo0)/bin), 0, 1023)` and `hi_bin = clamp(ceil((orig_hi − lo0)/bin), 0,
1023)`.  This holds per component, including a zero-width root axis. -/
theorem compress_containment (lo0 hi0 lo hi : ℚ)
    (h1 : lo0 ≤ lo) (h2 : lo ≤ hi) (h3 : hi ≤ hi0) :
    decompress lo0 (binSize1023 lo0 hi0) (loBin lo0 (binSize1023 lo0 hi0) lo) ≤ lo ∧
    hi ≤ decompress lo0 (binSize1023 lo0 hi0) (hiBin lo0 (binSize1023 lo0 hi0) hi) := by
  rcases eq_or_lt_of_le (le_trans h1 (le_trans h2 h3)) with heq | hlt
  · -- degenerate axis: lo0 = hi0 forces lo = hi = lo0 and bin = 0
    have hlo : lo = lo0 := le_antisymm (heq ▸ le_trans h2 h3) h1
    have hhi : hi = lo0 := le_antisymm (heq ▸ h3) (le_trans h1 h2)
    have hb : binSize1023 lo0 hi0 = 0 := by
      rw [binSize1023, ← heq]; norm_num
    subst hlo hhi
    rw [hb]
    simp [loBin, hiBin, decompress, clampBin]
  · -- non-degenerate axis: bin > 0
    set b : ℚ := binSize1023 lo0 hi0 with hbdef
    have hbpos : 0 < b := by
      rw [hbdef, binSize1023]
      apply div_pos (by linarith) (by norm_num)
    have hbne : b ≠ 0 := ne_of_gt hbpos
    constructor
    · -- lower bound rounds down
      set t : ℚ := (lo - lo0) / b with htdef
      have ht0 : 0 ≤ t := div_nonneg (by linarith) (le_of_lt hbpos)
      have hfl0 : 0 ≤ ⌊t⌋ := Int.floor_nonneg.mpr ht0
      have hcl : clampBin ⌊t⌋ ≤ ⌊t⌋ := by
        rw [clampBin]; omega
      have hle : ((clampBin ⌊t⌋ : Int) : ℚ) ≤ t :=
        le_trans (by exact_mod_cast hcl) (Int.floor_le t)
      have := mul_le_mul_of_nonneg_right hle (le_of_lt hbpos)
      rw [htdef, div_mul_cancel₀ _ hbne] at this
      rw [decompress, loBin, ← htdef]
      linarith
    · -- upper bound rounds up and never clamps down
      set u : ℚ := (hi - lo0) / b with hudef
      have hu0 : 0 ≤ u := div_nonneg (by linarith) (le_of_lt hbpos)
      have huhi : u ≤ 1023 := by
        rw [hudef, div_le_iff₀ hbpos, hbdef, binSize1023]
        have hring : (1023 : ℚ) * ((hi0 - lo0) / 1023) = hi0 - lo0 := by ring
        rw [hring]
        linarith
      have hc0 : 0 ≤ ⌈u⌉ := Int.ceil_nonneg hu0
      have hc1023 : ⌈u⌉ ≤ 1023 := Int.ceil_le.mpr (by exact_mod_cast huhi)
      have hcl : clampBin ⌈u⌉ = ⌈u⌉ := by
        rw [clampBin]; omega
      have hge : u ≤ ((clampBin ⌈u⌉ : Int) : ℚ) := by
        rw [hcl]; exact Int.le_ceil u
      have := mul_le_mul_of_nonneg_right hge (le_of_lt hbpos)
      rw [hudef, div_mul_cancel₀ _ hbne] at this
      rw [decompress, hiBin, ← hudef]
      linarith

/-- Witness for `compress_containment` at concrete inputs. -/
theorem compress_containment_witness :
    (0 : ℚ) ≤ 1 ∧ (1 : ℚ) ≤ 2 ∧ (2 : ℚ) ≤ 1023 ∧
    (decompress 0 (binSize1023 0 1023) (loBin 0 (binSize1023 0 1023) 1) ≤ 1 ∧
     2 ≤ decompress 0 (binSize1023 0 1023) (hiBin 0 (binSize1023 0 1023) 2)) :=
  ⟨by norm_num, by norm_num, by norm_num,
   compress_containment 0 1023 1 2 (by norm_num) (by norm_num) (by norm_num)⟩

/-! ## The LBVHTraverser facade

Translated from `include/neighbor/LBVHTraverser.h`.  The device kernels
are opaque at this level: the compression kernel writes a deterministic
function of the tree data and the transform op into the buffer, and the
traversal kernel launch is recorded as the data handed to it. -/

/-- The LBVH produced by the external builder, as seen through its
interface: `getN()`, `getNInternal()`, `getNNodes()`, `getRoot()`, plus an
opaque handle `content` standing for its device-resident arrays. -/
structure LBVH where
  n : Nat
  nInternal : Nat
  nNodes : Nat
  root : Int
  content : Nat
  deriving DecidableEq, Repr

/-- A query op, as seen by the facade: `size()` plus an opaque handle. -/
structure QueryOp where
  size : Nat
  content : Nat
  deriving DecidableEq, Repr

/-- A translate op (image list), as seen by the facade: `size()` plus an
opaque handle. -/
structure TranslateOp where
  size : Nat
  content : Nat
  deriving DecidableEq, Repr

/-- The contents of the compressed buffer after a compression.  The
compression kernel writes a deterministic function of the tree data, the
transform op and the node counts, so the buffer contents are identified
by the tuple of arguments the facade hands to `gpu::lbvh_compress_ropes`. -/
structure CompressedData where
  content : Nat
  transform : Nat
  nInternal : Nat
  nNodes : Nat
  deriving DecidableEq, Repr

/-- Modelled from the spec: the autotuner configuration state visible at
the facade level (§4.5); the C++ `Autotuner` class body is external.  The
constructor arguments are `(start, end, step, nsamples, period)` (`end`
is renamed `stop`, being a reserved word). -/
structure Autotuner where
  start : Nat
  stop : Nat
  step : Nat
  samples : Nat
  period : Nat
  enabled : Bool
  deriving DecidableEq, Repr

/-- `Autotuner(start, end, step, nsamples, period)`. -/
def Autotuner.new (start stop step samples period : Nat) : Autotuner where
  start := start
  stop := stop
  step := step
  samples := samples
  period := period
  enabled := true

/-- `Autotuner::setEnabled(enable)`. -/
def Autotuner.setEnabled (a : Autotuner) (enable : Bool) : Autotuner :=
  { a with enabled := enable }

/-- `Autotuner::setPeriod(period)`. -/
def Autotuner.setPeriod (a : Autotuner) (period : Nat) : Autotuner :=
  { a with period := period }

/-- Modelled from the spec: the discrete parameter set
`{start, start+step, …, end}` of an autotuner (§4.5). -/
def Autotuner.parameters (a : Autotuner) : List Nat :=
  (List.range ((a.stop - a.start) / a.step + 1)).map (fun k => a.start + k * a.step)

/-- The facade state: `m_root`, the `m_data` buffer (its size, and its
contents once a compression has happened), `m_replay` and the two
autotuners. -/
structure Traverser where
  root : Int
  dataSize : Nat
  dataContents : Option CompressedData
  replay : Bool
  tuneTraverse : Autotuner
  tuneCompress : Autotuner
  deriving DecidableEq, Repr

/-- The constructor `LBVHTraverser()`: empty data buffer,
`m_replay(false)`, and both autotuners built with
`Autotuner(32, 1024, 32, 5, 100000)`.  (`m_root` is default-initialized;
it is modelled as 0 and never read before a compression sets it.) -/
def Traverser.new : Traverser where
  root := 0
  dataSize := 0
  dataContents := none
  replay := false
  tuneTraverse := Autotuner.new 32 1024 32 5 100000
  tuneCompress := Autotuner.new 32 1024 32 5 100000

/-- `LBVHTraverser::reset()`: clear the replay flag. -/
def Traverser.reset (t : Traverser) : Traverser :=
  { t with replay := false }

/-- `LBVHTraverser::setAutotunerParams(enable, period)`: forward the
enable flag and the period to both autotuners. -/
def Traverser.setAutotunerParams (t : Traverser) (enable : Bool) (period : Nat) : Traverser :=
  { t with
    tuneTraverse := (t.tuneTraverse.setEnabled enable).setPeriod period
    tuneCompress := (t.tuneCompress.setEnabled enable).setPeriod period }

/-- `LBVHTraverser::compress(lbvh, transform, stream)`: reallocate the
buffer to exactly `getNNodes()` elements when that exceeds its current
size (otherwise leave it), set `m_root = lbvh.getRoot()`, and launch the
compression kernel, which fills the buffer. -/
def Traverser.compress (t : Traverser) (lbvh : LBVH) (transform : Nat) : Traverser :=
  { t with
    dataSize := if lbvh.nNodes > t.dataSize then lbvh.nNodes else t.dataSize
    root := lbvh.root
    dataContents := some ⟨lbvh.content, transform, lbvh.nInternal, lbvh.nNodes⟩ }

/-- `LBVHTraverser::setup(transform, lbvh, stream)`: return at once on an
empty LBVH; otherwise compress and set `m_replay = true`. -/
def Traverser.setup (t : Traverser) (transform : Nat) (lbvh : LBVH) : Traverser :=
  if lbvh.n = 0 then t
  else { t.compress lbvh transform with replay := true }

/-- The traversal kernel launch issued by `traverse`: the compressed
LBVH data handed to `gpu::lbvh_traverse_ropes`, together with the query
and the image list. -/
structure TraverseLaunch where
  root : Int
  data : Option CompressedData
  query : QueryOp
  images : TranslateOp
  deriving DecidableEq, Repr

/-- `LBVHTraverser::traverse(out, query, transform, lbvh, images,
stream)`: the silent early returns for empty inputs, then the 32-image
check (throwing `std::runtime_error`), then `setup` when `m_replay` is
not set, then the traversal kernel launch.  The result is the new facade
state paired with the outcome: `Except.error` for the throw, `.ok none`
for a silent no-op return, and `.ok (some launch)` when the traversal
kernel is launched. -/
def Traverser.traverse (t : Traverser) (query : QueryOp) (transform : Nat)
    (lbvh : LBVH) (images : TranslateOp) :
    Traverser × Except String (Option TraverseLaunch) :=
  if lbvh.n = 0 then (t, .ok none)
  else if query.size = 0 ∨ images.size = 0 then (t, .ok none)
  else if images.size > 32 then
    (t, .error "A maximum of 32 image vectores are supported by LBVH traversers.")
  else
    let t1 := if t.replay = false then t.setup transform lbvh else t
    (t1, .ok (some ⟨t1.root, t1.dataContents, query, images⟩))

/-- A host-side call against the facade, for stating frame properties
over arbitrary call sequences. -/
inductive FacadeOp where
  | setup (transform : Nat) (lbvh : LBVH)
  | reset
  | traverse (query : QueryOp) (transform : Nat) (lbvh : LBVH) (images : TranslateOp)
  | setAutotunerParams (enable : Bool) (period : Nat)
  deriving DecidableEq, Repr

/-- The state after one facade call (outcomes discarded). -/
def Traverser.apply (t : Traverser) (op : FacadeOp) : Traverser :=
  match op with
  | .setup transform lbvh => t.setup transform lbvh
  | .reset => t.reset
  | .traverse q transform lbvh im => (t.traverse q transform lbvh im).1
  | .setAutotunerParams e p => t.setAutotunerParams e p

/-- The state after a sequence of facade calls. -/
def Traverser.applyAll (t : Traverser) (ops : List FacadeOp) : Traverser :=
  ops.foldl Traverser.apply t

/-- The sequence of outcomes of repeated `traverse` calls against a fixed
LBVH and transform op, threading the facade state. -/
def Traverser.traverseSeq (t : Traverser) (transform : Nat) (lbvh : LBVH) :
    List (QueryOp × TranslateOp) →
    Traverser × List (Except String (Option TraverseLaunch))
  | [] => (t, [])
  | c :: rest =>
    let r := t.traverse c.1 transform lbvh c.2
    let s := Traverser.traverseSeq r.1 transform lbvh rest
    (s.1, r.2 :: s.2)

/-! ## Facade properties: empty inputs and the 32-image limit -/

/-- **C4.** A `traverse` call with an empty LBVH, an empty query list or
an empty image list silently returns: it is not an error, no kernel is
launched, and the facade state is unchanged. -/
theorem traverse_empty_noop (t : Traverser) (q : QueryOp) (transform : Nat)
    (lbvh : LBVH) (im : TranslateOp)
    (h : lbvh.n = 0 ∨ q.size = 0 ∨ im.size = 0) :
    t.traverse q transform lbvh im = (t, .ok none) := by
  unfold Traverser.traverse
  by_cases h0 : lbvh.n = 0
  · simp [h0]
  · rcases h with h | h | h
    · exact absurd h h0
    · simp [h0, h]
    · simp [h0, h]

/-- Witness for `traverse_empty_noop` at a concrete empty tree. -/
theorem traverse_empty_noop_witness :
    (LBVH.mk 0 0 0 0 6).n = 0 ∧
    Traverser.new.traverse ⟨3, 1⟩ 0 (LBVH.mk 0 0 0 0 6) ⟨2, 4⟩ =
      (Traverser.new, .ok none) :=
  ⟨rfl, traverse_empty_noop Traverser.new ⟨3, 1⟩ 0 (LBVH.mk 0 0 0 0 6) ⟨2, 4⟩ (Or.inl rfl)⟩

/-- **C7.** The empty-input early returns are evaluated before the
32-image limit: a call with 33 images but an empty query list returns
silently, with no error raised and no state change. -/
theorem empty_checks_precede_image_limit :
    (33 : Nat) > 32 ∧
    Traverser.new.traverse ⟨0, 7⟩ 0 (LBVH.mk 4 3 7 0 11) ⟨33, 5⟩ =
      (Traverser.new, .ok none) :=
  ⟨by decide, rfl⟩

/-- **C3 (counterexample).** Not every call with more than 32 images
reports a fatal error: with an empty tree (`getN() == 0`) and 33 images,
`traverse` silently returns with no error. -/
theorem image_limit_throw_counterexample :
    (33 : Nat) > 32 ∧
    (Traverser.new.traverse ⟨5, 1⟩ 0 (LBVH.mk 0 0 0 0 2) ⟨33, 9⟩).2 = .ok none :=
  ⟨by decide, rfl⟩

/-- **C3 (amended).** For every call with a non-empty tree and a
non-empty query list in which the image list has more than 32 entries,
`traverse` throws `std::runtime_error` before any kernel launch and
mutates nothing: the state (replay flag, compressed buffer, root,
autotuners) is returned unchanged, no compression occurs and no output
is written. -/
theorem image_limit_throws (t : Traverser) (q : QueryOp) (transform : Nat)
    (lbvh : LBVH) (im : TranslateOp)
    (hn : lbvh.n ≠ 0) (hq : q.size ≠ 0) (him : im.size > 32) :
    t.traverse q transform lbvh im =
      (t, .error "A maximum of 32 image vectores are supported by LBVH traversers.") := by
  have hne : ¬ (q.size = 0 ∨ im.size = 0) := by
    push_neg
    exact ⟨hq, by omega⟩
  unfold Traverser.traverse
  simp [hn, hne, him]

/-- Witness for `image_limit_throws` at concrete inputs. -/
theorem image_limit_throws_witness :
    (LBVH.mk 3 2 5 0 1).n ≠ 0 ∧ (QueryOp.mk 2 0).size ≠ 0 ∧
    (TranslateOp.mk 33 0).size > 32 ∧
    Traverser.new.traverse ⟨2, 0⟩ 0 (LBVH.mk 3 2 5 0 1) ⟨33, 0⟩ =
      (Traverser.new,
       .error "A maximum of 32 image vectores are supported by LBVH traversers.") :=
  ⟨by decide, by decide, by decide,
   image_limit_throws Traverser.new ⟨2, 0⟩ 0 (LBVH.mk 3 2 5 0 1) ⟨33, 0⟩
     (by decide) (by decide) (by decide)⟩

/-! ## Facade properties: replay and setup -/

/-- `setup` on a non-empty LBVH sets the replay flag. -/
theorem setup_sets_replay (t : Traverser) (transform : Nat) (lbvh : LBVH)
    (hn : lbvh.n ≠ 0) : (t.setup transform lbvh).replay = true := by
  simp [Traverser.setup, hn]

/-- A `traverse` against a state whose replay flag is set leaves the
state unchanged (no setup, no compression). -/
theorem traverse_replay_state (s : Traverser) (q : QueryOp) (transform : Nat)
    (lbvh : LBVH) (im : TranslateOp) (hs : s.replay = true) :
    (s.traverse q transform lbvh im).1 = s := by
  unfold Traverser.traverse
  split
  · rfl
  · split
    · rfl
    · split
      · rfl
      · simp [hs]

/-- A `traverse` that reaches the kernel launch with the replay flag
clear first runs `setup`. -/
theorem traverse_noreplay_state (s : Traverser) (q : QueryOp) (transform : Nat)
    (lbvh : LBVH) (im : TranslateOp) (hs : s.replay = false)
    (hn : lbvh.n ≠ 0) (hq : q.size ≠ 0) (him : im.size ≠ 0) (him32 : im.size ≤ 32) :
    (s.traverse q transform lbvh im).1 = s.setup transform lbvh := by
  have hne : ¬ (q.size = 0 ∨ im.size = 0) := by
    push_neg
    exact ⟨hq, him⟩
  have h32 : ¬ im.size > 32 := by omega
  unfold Traverser.traverse
  simp [hn, hne, h32, hs]

/-- Whatever `traverse` does, the resulting state is the old one or the
one `setup` produces. -/
theorem traverse_state_cases (t : Traverser) (q : QueryOp) (transform : Nat)
    (lbvh : LBVH) (im : TranslateOp) :
    (t.traverse q transform lbvh im).1 = t ∨
    (t.traverse q transform lbvh im).1 = t.setup transform lbvh := by
  unfold Traverser.traverse
  split
  · exact Or.inl rfl
  · split
    · exact Or.inl rfl
    · split
      · exact Or.inl rfl
      · by_cases hs : t.replay = false
        · exact Or.inr (by simp [hs])
        · exact Or.inl (by simp [hs])

/-- A `traverse` from the post-`setup` state and from the pre-`setup`
state produce the same outcome, when the replay flag was clear and the
LBVH is non-empty. -/
theorem traverse_setup_output (t : Traverser) (q : QueryOp) (transform : Nat)
    (lbvh : LBVH) (im : TranslateOp) (hreplay : t.replay = false) (hn : lbvh.n ≠ 0) :
    ((t.setup transform lbvh).traverse q transform lbvh im).2 =
      (t.traverse q transform lbvh im).2 := by
  have hs := setup_sets_replay t transform lbvh hn
  unfold Traverser.traverse
  by_cases h1 : q.size = 0 ∨ im.size = 0
  · simp [hn, h1]
  · by_cases h2 : im.size > 32
    · simp [hn, h1, h2]
    · simp [hn, h1, h2, hs, hreplay]

/-- Induction core for replay correctness: running the call sequence from
the post-`setup` state gives the same outcomes as from either the
pre-`setup` state or the post-`setup` state. -/
theorem traverseSeq_replay_aux (t : Traverser) (transform : Nat) (lbvh : LBVH)
    (hreplay : t.replay = false) (hn : lbvh.n ≠ 0)
    (calls : List (QueryOp × TranslateOp)) :
    ∀ r : Traverser, r = t ∨ r = t.setup transform lbvh →
      ((t.setup transform lbvh).traverseSeq transform lbvh calls).2 =
        (r.traverseSeq transform lbvh calls).2 := by
  have hsr : (t.setup transform lbvh).replay = true := setup_sets_replay t transform lbvh hn
  induction calls with
  | nil => intro r _; rfl
  | cons c rest ih =>
    intro r hr
    have hhead : ((t.setup transform lbvh).traverse c.1 transform lbvh c.2).2 =
        (r.traverse c.1 transform lbvh c.2).2 := by
      rcases hr with h | h
      · rw [h]
        exact traverse_setup_output t c.1 transform lbvh c.2 hreplay hn
      · rw [h]
    have hls : ((t.setup transform lbvh).traverse c.1 transform lbvh c.2).1 =
        t.setup transform lbvh :=
      traverse_replay_state _ c.1 transform lbvh c.2 hsr
    have hrs : (r.traverse c.1 transform lbvh c.2).1 = t ∨
        (r.traverse c.1 transform lbvh c.2).1 = t.setup transform lbvh := by
      rcases hr with h | h
      · rw [h]
        exact traverse_state_cases t c.1 transform lbvh c.2
      · rw [h]
        exact Or.inr (traverse_replay_state _ c.1 transform lbvh c.2 hsr)
    show (_ :: ((_ : Traverser).traverseSeq transform lbvh rest).2) =
      (_ :: ((_ : Traverser).traverseSeq transform lbvh rest).2)
    rw [hhead, hls]
    exact congrArg _ (ih _ hrs)

/-- **C5.** Replay correctness over a fixed non-empty LBVH and transform:
`setup` followed by any sequence of `traverse` calls yields the same
outcomes as the `traverse` calls alone (starting with the replay flag
clear); moreover `setup` on a non-empty LBVH sets the replay flag, a
`traverse` with the flag set leaves the state unchanged (it reuses the
cached compressed data), and a launching `traverse` with the flag clear
puts the facade exactly in the post-`setup` state (it invokes `setup`). -/
theorem replay_correctness (t : Traverser) (transform : Nat) (lbvh : LBVH)
    (calls : List (QueryOp × TranslateOp)) (q : QueryOp) (im : TranslateOp)
    (hreplay : t.replay = false) (hn : lbvh.n ≠ 0)
    (hq : q.size ≠ 0) (him : im.size ≠ 0) (him32 : im.size ≤ 32) :
    ((t.setup transform lbvh).traverseSeq transform lbvh calls).2 =
      (t.traverseSeq transform lbvh calls).2 ∧
    (t.setup transform lbvh).replay = true ∧
    ((t.setup transform lbvh).traverse q transform lbvh im).1 =
      t.setup transform lbvh ∧
    (t.traverse q transform lbvh im).1 = t.setup transform lbvh := by
  refine ⟨traverseSeq_replay_aux t transform lbvh hreplay hn calls t (Or.inl rfl),
    setup_sets_replay t transform lbvh hn,
    traverse_replay_state _ q transform lbvh im (setup_sets_replay t transform lbvh hn),
    traverse_noreplay_state t q transform lbvh im hreplay hn hq him him32⟩

/-- Witness for `replay_correctness` at concrete inputs. -/
theorem replay_correctness_witness :
    Traverser.new.replay = false ∧ (LBVH.mk 2 1 3 0 5).n ≠ 0 ∧
    ((Traverser.new.setup 0 (LBVH.mk 2 1 3 0 5)).traverseSeq 0 (LBVH.mk 2 1 3 0 5)
        [(⟨4, 1⟩, ⟨2, 2⟩), (⟨0, 3⟩, ⟨1, 1⟩)]).2 =
      (Traverser.new.traverseSeq 0 (LBVH.mk 2 1 3 0 5)
        [(⟨4, 1⟩, ⟨2, 2⟩), (⟨0, 3⟩, ⟨1, 1⟩)]).2 ∧
    (Traverser.new.setup 0 (LBVH.mk 2 1 3 0 5)).replay = true ∧
    ((Traverser.new.setup 0 (LBVH.mk 2 1 3 0 5)).traverse ⟨4, 1⟩ 0
        (LBVH.mk 2 1 3 0 5) ⟨2, 2⟩).1 = Traverser.new.setup 0 (LBVH.mk 2 1 3 0 5) ∧
    (Traverser.new.traverse ⟨4, 1⟩ 0 (LBVH.mk 2 1 3 0 5) ⟨2, 2⟩).1 =
      Traverser.new.setup 0 (LBVH.mk 2 1 3 0 5) := by
  have h := replay_correctness Traverser.new 0 (LBVH.mk 2 1 3 0 5)
    [(⟨4, 1⟩, ⟨2, 2⟩), (⟨0, 3⟩, ⟨1, 1⟩)] ⟨4, 1⟩ ⟨2, 2⟩
    rfl (by decide) (by decide) (by decide) (by decide)
  exact ⟨rfl, by decide, h.1, h.2.1, h.2.2.1, h.2.2.2⟩

/-- **C10.** `setup` on an empty LBVH returns without compressing and
leaves the whole state — in particular the replay flag — unchanged;
consequently, after a setup on a non-empty tree A, a setup on an empty
tree B is a no-op, the replay flag stays set, and a `traverse` handed a
third non-empty tree C does not compress C (the state is unchanged) and
launches with A's cached compressed data and root. -/
theorem setup_empty_stale_replay (t : Traverser) (trA trB trC : Nat)
    (lbvhA lbvhB lbvhC : LBVH) (q : QueryOp) (im : TranslateOp)
    (hA : lbvhA.n ≠ 0) (hB : lbvhB.n = 0) (hC : lbvhC.n ≠ 0)
    (hq : q.size ≠ 0) (him : im.size ≠ 0) (him32 : im.size ≤ 32) :
    t.setup trB lbvhB = t ∧
    ((t.setup trA lbvhA).setup trB lbvhB).replay = true ∧
    (((t.setup trA lbvhA).setup trB lbvhB).traverse q trC lbvhC im).1 =
      (t.setup trA lbvhA).setup trB lbvhB ∧
    (((t.setup trA lbvhA).setup trB lbvhB).traverse q trC lbvhC im).2 =
      .ok (some ⟨lbvhA.root,
        some ⟨lbvhA.content, trA, lbvhA.nInternal, lbvhA.nNodes⟩, q, im⟩) := by
  have hBseq : ∀ s : Traverser, s.setup trB lbvhB = s := by
    intro s; simp [Traverser.setup, hB]
  have hs : (t.setup trA lbvhA).setup trB lbvhB = t.setup trA lbvhA := hBseq _
  have hrep : ((t.setup trA lbvhA).setup trB lbvhB).replay = true := by
    rw [hs]; exact setup_sets_replay t trA lbvhA hA
  have hne : ¬ (q.size = 0 ∨ im.size = 0) := by
    push_neg; exact ⟨hq, him⟩
  have h32 : ¬ im.size > 32 := by omega
  refine ⟨hBseq t, hrep, traverse_replay_state _ q trC lbvhC im hrep, ?_⟩
  rw [hs]
  unfold Traverser.traverse
  simp only [hC, hne, h32, if_false, ite_false]
  have hroot : (t.setup trA lbvhA).root = lbvhA.root := by
    simp [Traverser.setup, hA, Traverser.compress]
  have hdata : (t.setup trA lbvhA).dataContents =
      some ⟨lbvhA.content, trA, lbvhA.nInternal, lbvhA.nNodes⟩ := by
    simp [Traverser.setup, hA, Traverser.compress]
  simp [setup_sets_replay t trA lbvhA hA, hroot, hdata]

/-- Witness for `setup_empty_stale_replay` at concrete inputs. -/
theorem setup_empty_stale_replay_witness :
    (LBVH.mk 3 2 5 1 10).n ≠ 0 ∧ (LBVH.mk 0 0 0 0 20).n = 0 ∧
    (LBVH.mk 4 3 7 2 30).n ≠ 0 ∧
    Traverser.new.setup 8 (LBVH.mk 0 0 0 0 20) = Traverser.new ∧
    (((Traverser.new.setup 6 (LBVH.mk 3 2 5 1 10)).setup 8
        (LBVH.mk 0 0 0 0 20)).traverse ⟨2, 1⟩ 9 (LBVH.mk 4 3 7 2 30) ⟨1, 3⟩).2 =
      .ok (some ⟨(LBVH.mk 3 2 5 1 10).root,
        some ⟨(LBVH.mk 3 2 5 1 10).content, 6, (LBVH.mk 3 2 5 1 10).nInternal,
          (LBVH.mk 3 2 5 1 10).nNodes⟩, ⟨2, 1⟩, ⟨1, 3⟩⟩) := by
  have h := setup_empty_stale_replay Traverser.new 6 8 9
    (LBVH.mk 3 2 5 1 10) (LBVH.mk 0 0 0 0 20) (LBVH.mk 4 3 7 2 30) ⟨2, 1⟩ ⟨1, 3⟩
    (by decide) (by decide) (by decide) (by decide) (by decide) (by decide)
  exact ⟨by decide, by decide, by decide, h.1, h.2.2.2⟩

/-! ## Facade properties: buffer resizing and autotuners -/

/-- Any single facade call leaves the data-buffer size no smaller. -/
theorem apply_dataSize_mono (t : Traverser) (op : FacadeOp) :
    t.dataSize ≤ (t.apply op).dataSize := by
  have hsetup : ∀ (s : Traverser) (transform : Nat) (lbvh : LBVH),
      s.dataSize ≤ (s.setup transform lbvh).dataSize := by
    intro s transform lbvh
    unfold Traverser.setup
    split
    · exact le_refl _
    · simp only [Traverser.compress]
      split <;> omega
  cases op with
  | setup transform lbvh => exact hsetup t transform lbvh
  | reset => exact le_refl _
  | setAutotunerParams e p => exact le_refl _
  | traverse q transform lbvh im =>
    rcases traverse_state_cases t q transform lbvh im with h | h
    · rw [Traverser.apply, h]
    · rw [Traverser.apply, h]
      exact hsetup t transform lbvh

/-- **C8.** `compress` resizes the internal compressed-node buffer only
on growth — to exactly `getNNodes()` elements when that exceeds the
current size, and otherwise leaves the size unchanged — and the buffer
size never decreases across any sequence of setup/traverse/reset (or
autotuner-parameter) calls. -/
theorem compress_resize_on_growth (t : Traverser) (lbvh : LBVH) (transform : Nat)
    (ops : List FacadeOp) :
    (t.compress lbvh transform).dataSize =
      (if lbvh.nNodes > t.dataSize then lbvh.nNodes else t.dataSize) ∧
    t.dataSize ≤ (t.applyAll ops).dataSize := by
  constructor
  · rfl
  · induction ops generalizing t with
    | nil => exact le_refl _
    | cons op rest ih =>
      exact le_trans (apply_dataSize_mono t op) (ih (t.apply op))

/-- **C9.** The constructor creates both the traversal and the
compression autotuner with `Autotuner(32, 1024, 32, 5, 100000)`, whose
parameter set is `{32, 64, …, 1024}` (start 32, end 1024, step 32) with
5 samples and period 100000; and `setAutotunerParams(enable, period)`
forwards the enable flag and the period to both autotuners. -/
theorem autotuner_construction_and_forwarding (t : Traverser) (enable : Bool)
    (period : Nat) :
    Traverser.new.tuneTraverse = Autotuner.new 32 1024 32 5 100000 ∧
    Traverser.new.tuneCompress = Autotuner.new 32 1024 32 5 100000 ∧
    Traverser.new.tuneTraverse.parameters =
      [32, 64, 96, 128, 160, 192, 224, 256, 288, 320, 352, 384, 416, 448,
       480, 512, 544, 576, 608, 640, 672, 704, 736, 768, 800, 832, 864,
       896, 928, 960, 992, 1024] ∧
    Traverser.new.tuneCompress.parameters = Traverser.new.tuneTraverse.parameters ∧
    Traverser.new.tuneTraverse.samples = 5 ∧
    Traverser.new.tuneTraverse.period = 100000 ∧
    (t.setAutotunerParams enable period).tuneTraverse.enabled = enable ∧
    (t.setAutotunerParams enable period).tuneTraverse.period = period ∧
    (t.setAutotunerParams enable period).tuneCompress.enabled = enable ∧
    (t.setAutotunerParams enable period).tuneCompress.period = period := by
  refine ⟨rfl, rfl, by decide, rfl, rfl, rfl, ?_, ?_, ?_, ?_⟩ <;>
    simp [Traverser.setAutotunerParams, Autotuner.setEnabled, Autotuner.setPeriod]

/-! ## Rope traversal -/

/-- The sentinel rope value marking "stop traversal": a distinguished
negative integer constant (`INT_MIN`). -/
def LBVHSentinel : Int := -(2 ^ 31)

/-- Modelled from the spec: the per-node tree data the traversal kernel
reads (§4.3): whether the node is a leaf, its left child index and its
rope index.  Nodes are indexed by naturals below `nNodes`. -/
structure RopeTree where
  nNodes : Nat
  leaf : Nat → Bool
  child : Nat → Int
  rope : Nat → Int

/-- Modelled from the spec: one iteration of the stackless traversal loop
(§4.3): at an internal node overlapped by at least one active translated
image of the query, descend to the left child; otherwise (no overlap, or
a leaf) follow the rope.  `overlaps i` abstracts the per-node overlap
outcome of the query and its active images.  At the sentinel the walk
stays put (the loop has exited). -/
def traverseStep (tree : RopeTree) (overlaps : Nat → Bool) (node : Int) : Int :=
  if node = LBVHSentinel then node
  else if tree.leaf node.toNat = false ∧ overlaps node.toNat = true then
    tree.child node.toNat
  else tree.rope node.toNat

/-- **C2.** For every query (every overlap outcome), the rope traversal
loop terminates at `LBVHSentinel` within `2 * nPrim - 1` steps, given a
tree of `2 * nPrim - 1` nodes whose ropes and child links are monotone in
some node ordering `pos` and whose rope chains end at the sentinel: a
node reached by a rope or a descent is strictly later in `pos`, so no
node is ever revisited.  Moreover the sentinel is absorbing, so the loop
exits exactly when the node equals `LBVHSentinel`. -/
theorem traversal_terminates (tree : RopeTree) (overlaps : Nat → Bool)
    (nPrim : Nat) (pos : Nat → Nat) (root : Nat)
    (hN : tree.nNodes = 2 * nPrim - 1)
    (hroot : root < tree.nNodes)
    (hposlt : ∀ i, i < tree.nNodes → pos i < tree.nNodes)
    (hchild : ∀ i, i < tree.nNodes → tree.leaf i = false →
      0 ≤ tree.child i ∧ (tree.child i).toNat < tree.nNodes ∧
        pos i < pos (tree.child i).toNat)
    (hrope : ∀ i, i < tree.nNodes →
      tree.rope i = LBVHSentinel ∨
      (0 ≤ tree.rope i ∧ (tree.rope i).toNat < tree.nNodes ∧
        pos i < pos (tree.rope i).toNat)) :
    (traverseStep tree overlaps)^[2 * nPrim - 1] (root : Int) = LBVHSentinel ∧
    traverseStep tree overlaps LBVHSentinel = LBVHSentinel := by
  have hsentinel : traverseStep tree overlaps LBVHSentinel = LBVHSentinel := by
    unfold traverseStep
    simp
  refine ⟨?_, hsentinel⟩
  -- invariant: after k steps the walk is at the sentinel or at a valid
  -- node of position at least k
  have hinv : ∀ k : Nat,
      (traverseStep tree overlaps)^[k] (root : Int) = LBVHSentinel ∨
      (∃ i : Nat, (traverseStep tree overlaps)^[k] (root : Int) = (i : Int) ∧
        i < tree.nNodes ∧ k ≤ pos i) := by
    intro k
    induction k with
    | zero =>
      exact Or.inr ⟨root, rfl, hroot, Nat.zero_le _⟩
    | succ k ih =>
      rw [Function.iterate_succ_apply']
      rcases ih with hsent | ⟨i, hval, hilt, hpos⟩
      · rw [hsent]
        exact Or.inl hsentinel
      · rw [hval]
        have hnotsent : (i : Int) ≠ LBVHSentinel := by
          have : LBVHSentinel < 0 := by decide
          omega
        unfold traverseStep
        rw [if_neg hnotsent]
        have htonat : (i : Int).toNat = i := Int.toNat_natCast i
        rw [htonat]
        by_cases hdesc : tree.leaf i = false ∧ overlaps i = true
        · rw [if_pos hdesc]
          obtain ⟨hc0, hclt, hcpos⟩ := hchild i hilt hdesc.1
          refine Or.inr ⟨(tree.child i).toNat, ?_, hclt, ?_⟩
          · omega
          · have := hposlt i hilt
            omega
        · rw [if_neg hdesc]
          rcases hrope i hilt with hsent | ⟨hr0, hrlt, hrpos⟩
          · exact Or.inl hsent
          · refine Or.inr ⟨(tree.rope i).toNat, ?_, hrlt, ?_⟩
            · omega
            · omega
  rcases hinv (2 * nPrim - 1) with h | ⟨i, hval, hilt, hpos⟩
  · exact h
  · -- impossible: pos i < nNodes = 2 * nPrim - 1 ≤ pos i
    have := hposlt i hilt
    omega

/-- Witness for `traversal_terminates`: the single-primitive tree (the
leaf is the root, its rope is the sentinel) is left after one step. -/
theorem traversal_terminates_witness :
    (RopeTree.mk 1 (fun _ => true) (fun _ => 0) (fun _ => LBVHSentinel)).nNodes =
      2 * 1 - 1 ∧
    (0 : Nat) < 1 ∧
    (traverseStep (RopeTree.mk 1 (fun _ => true) (fun _ => 0) (fun _ => LBVHSentinel))
      (fun _ => true))^[2 * 1 - 1] ((0 : Nat) : Int) = LBVHSentinel ∧
    traverseStep (RopeTree.mk 1 (fun _ => true) (fun _ => 0) (fun _ => LBVHSentinel))
      (fun _ => true) LBVHSentinel = LBVHSentinel := by
  have h := traversal_terminates
    (RopeTree.mk 1 (fun _ => true) (fun _ => 0) (fun _ => LBVHSentinel))
    (fun _ => true) 1 (fun _ => 0) 0
    rfl (by decide)
    (fun i hi => Nat.zero_lt_one)
    (fun i hi hleaf => by simp at hleaf)
    (fun i hi => Or.inl rfl)
  exact ⟨rfl, by decide, h.1, h.2⟩

end Neighbor
